import Mathlib

/-!
Shallow embedding of the go-postgres transaction-pipeline library.

Go strings are modelled as lists of characters, Go `any` values as the
tagged union `GoVal`, and Go maps as association lists with last-write-wins
update (`mapSet`) and decidable lookup (`mapGet`).  The database driver is
abstracted as an oracle (`StmtEnv` per prepared statement, indexed by the
pipeline position), so that prepare/execute/row-count outcomes, returned
identifiers and panics are explicit parameters.
-/

namespace GoPostgres

/-- A Go string, modelled as its character sequence. -/
abbrev GoStr := List Char

/-- A Go `any` (interface) value as it flows through this library:
string, 64-bit-style integer, boolean, or the nil interface value. -/
inductive GoVal where
  | vstr (s : GoStr)
  | vint (n : Int)
  | vbool (b : Bool)
  | vnil
  deriving DecidableEq, Repr

/-- The string produced for a value, matching how the library coerces map
keys with a universal format verb. -/
def goFormat : GoVal → GoStr
  | .vstr s => s
  | .vint n => (toString n).data
  | .vbool b => (if b then "true" else "false").data
  | .vnil => ("<nil>").data

/-- Lookup in a Go map modelled as an association list. -/
def mapGet {β : Type} : List (GoStr × β) → GoStr → Option β
  | [], _ => none
  | (k', v) :: rest, k => if k' = k then some v else mapGet rest k

/-- Assignment `m[k] = v` in a Go map: overwrite the existing binding or
append a fresh one. -/
def mapSet {β : Type} : List (GoStr × β) → GoStr → β → List (GoStr × β)
  | [], k, v => [(k, v)]
  | (k', v') :: rest, k, v =>
      if k' = k then (k, v) :: rest else (k', v') :: mapSet rest k v

/-- Resolved named arguments for one statement: Go `map[string]any`. -/
abbrev ArgMap := List (GoStr × GoVal)

/-- Keyword constant for insert statements. -/
def qInsert : GoStr := ("insert").data

/-- Keyword constant for update statements. -/
def qUpdate : GoStr := ("update").data

/-- Keyword constant for delete statements. -/
def qDelete : GoStr := ("delete").data

/-- Keyword constant for select statements. -/
def qSelect : GoStr := ("select").data

/-- The reserved marker that introduces a cross-statement result
reference inside an argument value. -/
def qResult : GoStr := ("q-result---").data

/-- Whitespace predicate used by the trim step. -/
def goIsSpace (c : Char) : Bool :=
  c = ' ' || c = '\t' || c = '\n' || c = '\r' || c = (Char.ofNat 11) || c = (Char.ofNat 12)

/-- Trim whitespace from both ends of a string, as the classifier does
before inspecting the leading keyword. -/
def goTrim (s : GoStr) : GoStr :=
  ((s.dropWhile goIsSpace).reverse.dropWhile goIsSpace).reverse

/-- Lowercase a string character by character. -/
def goToLower (s : GoStr) : GoStr := s.map Char.toLower

/-- Statement classifier: trim the text, default short text to select,
otherwise lowercase the first six characters and test them against the
insert/update/delete keywords in that order. -/
def queryType (query : GoStr) : GoStr :=
  let q := goTrim query
  if q.length < 6 then qSelect
  else
    let qp := goToLower (q.take 6)
    if qInsert.isPrefixOf qp then qInsert
    else if qUpdate.isPrefixOf qp then qUpdate
    else if qDelete.isPrefixOf qp then qDelete
    else qSelect

/-- Loop body of the plain pair resolver: walk the flat key/value list two
items at a time, coercing keys to strings. -/
def pairsLoop : List GoVal → ArgMap → ArgMap
  | k :: v :: rest, acc => pairsLoop rest (mapSet acc (goFormat k) v)
  | _, acc => acc

/-- Pairs converts a flat key/value slice into a named-argument map,
rejecting odd-length input. -/
def Pairs (kv : List GoVal) : Except String ArgMap :=
  if kv.length % 2 = 1 then
    .error "invalid key-value pairs: expected even number of arguments"
  else
    .ok (pairsLoop kv [])

/-- Per-value substitution rule of the hook-aware resolver: a string value
longer than eleven characters whose first eleven characters equal the hook
is replaced by the identifier recorded under the remainder (the missing-key
zero value being nil); every other value passes through unchanged. -/
def hookResolve (ids : ArgMap) (hook : GoStr) (v : GoVal) : GoVal :=
  match v with
  | .vstr s =>
      if 11 < s.length ∧ s.take 11 = hook then (mapGet ids (s.drop 11)).getD .vnil
      else .vstr s
  | w => w

/-- Loop body of the hook-aware pair resolver. -/
def pairsHookLoop (ids : ArgMap) (hook : GoStr) : List GoVal → ArgMap → ArgMap
  | k :: v :: rest, acc =>
      pairsHookLoop ids hook rest (mapSet acc (goFormat k) (hookResolve ids hook v))
  | _, acc => acc

/-- PairsHook converts a flat key/value slice into a named-argument map,
rejecting odd-length input and rewriting marker-prefixed string values
through the supplied identifier map. -/
def PairsHook (kv : List GoVal) (ids : ArgMap) (hook : GoStr) : Except String ArgMap :=
  if kv.length % 2 = 1 then
    .error "invalid key-value pairs: expected even number of arguments"
  else
    .ok (pairsHookLoop ids hook kv [])

/-- A pipeline: the ordered list of statement keys together with the map
from statement key to its raw flat argument list. -/
structure Pipeline where
  queryParameters : List (GoStr × List GoVal)
  queryKeys : List GoStr
  deriving DecidableEq, Repr

/-- A fresh empty pipeline. -/
def NewPipeline : Pipeline := ⟨[], []⟩

/-- Key disambiguation: when the candidate text is already a map key,
append an inline comment holding the current number of entries. -/
def uniqueQuery (p : Pipeline) (query : GoStr) : GoStr :=
  if (mapGet p.queryParameters query).isSome then
    query ++ ("/*").data ++ (toString p.queryKeys.length).data ++ ("*/").data
  else query

/-- Append a statement to the end of the pipeline, disambiguating its key;
empty text is ignored. -/
def addPipeline (p : Pipeline) (query : GoStr) (keyValuePairs : List GoVal) : Pipeline :=
  if query = [] then p
  else
    let u := uniqueQuery p query
    ⟨mapSet p.queryParameters u keyValuePairs, p.queryKeys ++ [u]⟩

/-- Prepend a statement to the front of the pipeline, disambiguating its
key; empty text is ignored. -/
def addFirstPipeline (p : Pipeline) (query : GoStr) (keyValuePairs : List GoVal) : Pipeline :=
  if query = [] then p
  else
    let u := uniqueQuery p query
    ⟨mapSet p.queryParameters u keyValuePairs, u :: p.queryKeys⟩

/-- Merge the source pipeline's entries, in order, onto the end of the
receiver, re-disambiguating each key against the receiver; entries whose
parameters are missing from the source map are skipped. -/
def appendPipeline (p : Pipeline) (source : Pipeline) : Pipeline :=
  if source.queryKeys = [] then p
  else
    source.queryKeys.foldl
      (fun acc query =>
        let u := uniqueQuery acc query
        match mapGet source.queryParameters query with
        | some params => ⟨mapSet acc.queryParameters u params, acc.queryKeys ++ [u]⟩
        | none => acc)
      p

/-- A pipeline is transactional when it holds at least one statement. -/
def isTrans (p : Pipeline) : Bool := p.queryKeys.length > 0

/-- Number of statements held by the pipeline. -/
def pipelineLen (p : Pipeline) : Nat := p.queryKeys.length

/-- Reset the pipeline to the empty state. -/
def clearPipeline (_p : Pipeline) : Pipeline := ⟨[], []⟩

/-- Outcome of the affected-row-count call on a driver result. -/
inductive RowsOutcome where
  | affected (n : Int)
  | errNoRows
  | errOther (e : String)
  deriving DecidableEq, Repr

/-- The driver's behaviour for one prepared statement: whether preparation
fails, whether execution panics or fails, what the row-count call reports,
and what scalar the insert scan produces. -/
structure StmtEnv where
  prepErr : Option String
  panics : Option GoVal
  execErr : Option String
  rows : RowsOutcome
  getErr : Option String
  insertedVal : GoVal
  deriving DecidableEq, Repr

/-- Result of running a piece of Go code: a value, a returned error, or a
panic unwinding past it. -/
inductive GoResult (α : Type) where
  | ok (v : α)
  | err (e : String)
  | panicked (pv : GoVal)
  deriving DecidableEq, Repr

/-- The transactional insert executor: prepare, scan the returned scalar,
and reject a nil identifier. -/
def insertTx (env : StmtEnv) : GoResult GoVal :=
  match env.prepErr with
  | some e => .err e
  | none =>
    match env.panics with
    | some pv => .panicked pv
    | none =>
      match env.getErr with
      | some e => .err e
      | none =>
        if env.insertedVal = .vnil then
          .err "insert operation failed: no ID was returned from the database"
        else .ok env.insertedVal

/-- The transactional update executor: prepare, execute, and report the
affected-row count, translating the explicit empty-result condition of the
row-count call into a successful zero count. -/
def updateTx (env : StmtEnv) : GoResult Int :=
  match env.prepErr with
  | some e => .err e
  | none =>
    match env.panics with
    | some pv => .panicked pv
    | none =>
      match env.execErr with
      | some e => .err e
      | none =>
        match env.rows with
        | .errNoRows => .ok 0
        | .errOther e => .err e
        | .affected n => .ok n

/-- The transactional delete executor; same structure as the update
executor. -/
def deleteTx (env : StmtEnv) : GoResult Int :=
  match env.prepErr with
  | some e => .err e
  | none =>
    match env.panics with
    | some pv => .panicked pv
    | none =>
      match env.execErr with
      | some e => .err e
      | none =>
        match env.rows with
        | .errNoRows => .ok 0
        | .errOther e => .err e
        | .affected n => .ok n

/-- Which low-level executor a statement is dispatched to. -/
inductive Executor where
  | insertE
  | updateE
  | deleteE
  deriving DecidableEq, Repr

/-- Dispatch used by the pipeline runner: insert and delete by classifier
match, everything else (update and select alike) to the update executor. -/
def pipelineDispatch (query : GoStr) : Executor :=
  let qt := queryType query
  if qt = qInsert then .insertE
  else if qt = qDelete then .deleteE
  else .updateE

/-- Dispatch used by the single-statement Exec path: the same if/else-if
chain, with update and select falling through to the update executor. -/
def execDispatch (query : GoStr) : Executor :=
  if queryType query = qInsert then .insertE
  else if queryType query = qDelete then .deleteE
  else .updateE

/-- Lift an executor's integer result into the dynamically typed result
the pipeline records. -/
def intResult : GoResult Int → GoResult GoVal
  | .ok n => .ok (.vint n)
  | .err e => .err e
  | .panicked pv => .panicked pv

/-- The executor outcome of the statement at position `i` with key
`query`, as the pipeline runner observes it. -/
def stepOutcome (env : Nat → StmtEnv) (i : Nat) (query : GoStr) : GoResult GoVal :=
  match pipelineDispatch query with
  | .insertE => insertTx (env i)
  | .deleteE => intResult (deleteTx (env i))
  | .updateE => intResult (updateTx (env i))

/-- One executed pipeline entry as recorded in the run trace: its position,
key, dispatched executor, the identifier map visible to it, its resolved
arguments, and its outcome. -/
structure Step where
  idx : Nat
  key : GoStr
  exe : Executor
  idsBefore : ArgMap
  args : ArgMap
  out : GoResult GoVal
  deriving DecidableEq, Repr

/-- The loop of the pipeline runner: cancellation check, parameter lookup,
hook-aware argument resolution, dispatch, and identifier recording, walking
the remaining keys from position `i` with accumulated identifiers `ids`. -/
def runLoop (env : Nat → StmtEnv) (ctxDone : Nat → Bool)
    (params : List (GoStr × List GoVal)) :
    List GoStr → Nat → ArgMap → List Step → GoResult ArgMap × List Step
  | [], _, ids, trace => (.ok ids, trace)
  | query :: rest, i, ids, trace =>
    if ctxDone i then (.err "context cancelled", trace)
    else
      match mapGet params query with
      | none => (.err ("query parameters not found for query at index " ++ toString i), trace)
      | some kvs =>
        match PairsHook kvs ids qResult with
        | .error e =>
            (.err ("failed to resolve parameters for query at index " ++ toString i ++ ": " ++ e),
             trace)
        | .ok args =>
          let exe := pipelineDispatch query
          let out := stepOutcome env i query
          let trace' := trace ++ [⟨i, query, exe, ids, args, out⟩]
          match out with
          | .panicked pv => (.panicked pv, trace')
          | .err e =>
              (.err ("failed to execute query at index " ++ toString i ++ ": " ++ e), trace')
          | .ok v => runLoop env ctxDone params rest (i + 1) (mapSet ids query v) trace'

/-- The pipeline runner: nil-transaction guard, empty-pipeline shortcut,
then the entry loop, returning the accumulated identifier map on success
together with the trace of executed entries. -/
def runPipeline (env : Nat → StmtEnv) (ctxDone : Nat → Bool) (txIsNil : Bool)
    (p : Pipeline) : GoResult ArgMap × List Step :=
  if txIsNil then (.err "transaction cannot be nil", [])
  else if p.queryKeys.length = 0 then (.ok [], [])
  else runLoop env ctxDone p.queryParameters p.queryKeys 0 [] []

/-- The builder state behind one fluent Exec chain: the originating
statement, its raw arguments, and the accumulated pipeline. -/
structure ExecQuery where
  query : GoStr
  keyValuePairs : List GoVal
  pipeline : Pipeline
  deriving DecidableEq, Repr

/-- Builds the marker string through which a later statement references an
earlier statement's recorded result. -/
def FromResult (key : GoStr) : GoStr := qResult ++ key

/-- Ledger of transaction-control calls made during one runner invocation,
together with the trace of executed entries. -/
structure TxLog where
  beginCalls : Nat
  commitCalls : Nat
  rollbackCalls : Nat
  steps : List Step
  deriving DecidableEq, Repr

/-- What a runner invocation hands back to the caller: a normal return
carrying an optional result and an optional error, or a re-raised panic. -/
inductive TxReturn where
  | ret (result : Option ArgMap) (error : Option String)
  | panicked (pv : GoVal)
  deriving DecidableEq, Repr

/-- The transaction runner: guard against an empty pipeline, prepend the
originating statement, begin a transaction, run the pipeline, and in the
deferred block roll back on panic or error and commit otherwise. -/
def ExecInTx (env : Nat → StmtEnv) (ctxDone : Nat → Bool)
    (beginErr : Option String) (commitErr : Option String) (e : ExecQuery) :
    TxReturn × TxLog :=
  if ¬ isTrans e.pipeline then
    (.ret none (some "invalid operation: no transaction pipeline found"), ⟨0, 0, 0, []⟩)
  else
    let p := addFirstPipeline e.pipeline e.query e.keyValuePairs
    match beginErr with
    | some be => (.ret none (some be), ⟨1, 0, 0, []⟩)
    | none =>
      match runPipeline env ctxDone false p with
      | (.panicked pv, steps) => (.panicked pv, ⟨1, 0, 1, steps⟩)
      | (.err msg, steps) => (.ret none (some msg), ⟨1, 0, 1, steps⟩)
      | (.ok ids, steps) =>
        match commitErr with
        | some ce => (.ret (some ids) (some ce), ⟨1, 1, 0, steps⟩)
        | none => (.ret (some ids) none, ⟨1, 1, 0, steps⟩)

/-- The single-statement execution path: reject pipelined queries, resolve
the flat arguments, then dispatch on the classified statement kind, with
update and select alike falling to the update executor. -/
def Exec (env : StmtEnv) (e : ExecQuery) : GoResult GoVal :=
  if isTrans e.pipeline then
    .err "invalid operation: this query is part of a transaction pipeline"
  else
    match Pairs e.keyValuePairs with
    | .error msg => .err msg
    | .ok _args =>
      match execDispatch e.query with
      | .insertE => insertTx env
      | .deleteE => intResult (deleteTx env)
      | .updateE => intResult (updateTx env)

/-- Whether a dynamic result is a success. -/
def isOkResult : GoResult GoVal → Bool
  | .ok _ => true
  | _ => false

/-- Whether the statement's raw parameters are present and of even
length, the success condition of the hook-aware resolver. -/
def evenParams (params : List (GoStr × List GoVal)) (query : GoStr) : Bool :=
  match mapGet params query with
  | some kvs => kvs.length % 2 = 0
  | none => false

/-- Decides whether the pipeline entry at position `i` with key `query`
passes every gate of the runner loop: no cancellation, parameters present,
even argument count, and a successful executor outcome. -/
def stepOkB (env : Nat → StmtEnv) (ctxDone : Nat → Bool)
    (params : List (GoStr × List GoVal)) (i : Nat) (query : GoStr) : Bool :=
  !ctxDone i && evenParams params query && isOkResult (stepOutcome env i query)

/-- The identifier map accumulated by folding a trace's successful steps
in order. -/
def idsOfSteps (steps : List Step) : ArgMap :=
  steps.foldl
    (fun m st =>
      match st.out with
      | .ok v => mapSet m st.key v
      | _ => m)
    []

/-- Placeholder step used as the default of positional trace lookups. -/
def step0 : Step := ⟨0, [], .updateE, [], [], .ok .vnil⟩

/-! ### Association-map lemmas -/

theorem mapGet_mapSet_self {β : Type} (m : List (GoStr × β)) (k : GoStr) (v : β) :
    mapGet (mapSet m k v) k = some v := by
  induction m with
  | nil => simp [mapSet, mapGet]
  | cons hd rest ih =>
    obtain ⟨k', v'⟩ := hd
    by_cases h : k' = k
    · simp [mapSet, h, mapGet]
    · simp [mapSet, h, mapGet, ih]

theorem mapGet_mapSet_ne {β : Type} (m : List (GoStr × β)) (k k' : GoStr) (v : β)
    (h : k' ≠ k) : mapGet (mapSet m k v) k' = mapGet m k' := by
  have h' : ¬ k = k' := fun hh => h hh.symm
  induction m with
  | nil => simp [mapSet, mapGet, h']
  | cons hd rest ih =>
    obtain ⟨k0, v0⟩ := hd
    by_cases h0 : k0 = k
    · subst h0
      simp [mapSet, mapGet, h']
    · simp [mapSet, h0, mapGet, ih]

theorem mapSet_length_of_fresh {β : Type} (m : List (GoStr × β)) (k : GoStr) (v : β)
    (h : mapGet m k = none) : (mapSet m k v).length = m.length + 1 := by
  induction m with
  | nil => simp [mapSet]
  | cons hd rest ih =>
    obtain ⟨k0, v0⟩ := hd
    by_cases h0 : k0 = k
    · simp [mapGet, h0] at h
    · simp [mapGet, h0] at h
      simp [mapSet, h0, ih h]

theorem mapGet_mapSet_isSome {β : Type} (m : List (GoStr × β)) (k key : GoStr) (v : β) :
    (mapGet (mapSet m k v) key).isSome = true ↔ key = k ∨ (mapGet m key).isSome = true := by
  by_cases h : key = k
  · subst h
    simp [mapGet_mapSet_self]
  · simp [mapGet_mapSet_ne m k key v h, h]

/-! ### Resolver parity lemmas -/

theorem Pairs_odd (kv : List GoVal) (h : kv.length % 2 = 1) :
    Pairs kv = .error "invalid key-value pairs: expected even number of arguments" := by
  simp [Pairs, h]

theorem Pairs_even (kv : List GoVal) (h : kv.length % 2 = 0) :
    Pairs kv = .ok (pairsLoop kv []) := by
  simp [Pairs, h]

theorem PairsHook_odd (kv : List GoVal) (ids : ArgMap) (hook : GoStr)
    (h : kv.length % 2 = 1) :
    PairsHook kv ids hook = .error "invalid key-value pairs: expected even number of arguments" := by
  simp [PairsHook, h]

theorem PairsHook_even (kv : List GoVal) (ids : ArgMap) (hook : GoStr)
    (h : kv.length % 2 = 0) :
    PairsHook kv ids hook = .ok (pairsHookLoop ids hook kv []) := by
  simp [PairsHook, h]

/-! ### Step-gate decomposition -/

theorem stepOkB_true_iff (env : Nat → StmtEnv) (ctxDone : Nat → Bool)
    (params : List (GoStr × List GoVal)) (i : Nat) (q : GoStr) :
    stepOkB env ctxDone params i q = true ↔
      ctxDone i = false ∧ (∃ kvs, mapGet params q = some kvs ∧ kvs.length % 2 = 0) ∧
        ∃ v, stepOutcome env i q = .ok v := by
  constructor
  · intro h
    simp only [stepOkB, Bool.and_eq_true, Bool.not_eq_true'] at h
    obtain ⟨⟨hc, he⟩, ho⟩ := h
    refine ⟨hc, ?_, ?_⟩
    · unfold evenParams at he
      cases hm : mapGet params q with
      | none => rw [hm] at he; simp at he
      | some kvs =>
        rw [hm] at he
        exact ⟨kvs, rfl, by simpa using he⟩
    · unfold isOkResult at ho
      cases hs : stepOutcome env i q with
      | ok v => exact ⟨v, rfl⟩
      | err e => rw [hs] at ho; simp at ho
      | panicked pv => rw [hs] at ho; simp at ho
  · rintro ⟨hc, ⟨kvs, hm, he⟩, ⟨v, ho⟩⟩
    simp [stepOkB, hc, evenParams, hm, he, isOkResult, ho]

/-! ### Runner-loop step equations -/

theorem runLoop_nil (env : Nat → StmtEnv) (ctxDone : Nat → Bool)
    (params : List (GoStr × List GoVal)) (i : Nat) (ids : ArgMap) (trace : List Step) :
    runLoop env ctxDone params [] i ids trace = (.ok ids, trace) := rfl

theorem runLoop_cons_ctx (env : Nat → StmtEnv) (ctxDone : Nat → Bool)
    (params : List (GoStr × List GoVal)) (q : GoStr) (keys : List GoStr)
    (i : Nat) (ids : ArgMap) (trace : List Step) (hc : ctxDone i = true) :
    runLoop env ctxDone params (q :: keys) i ids trace = (.err "context cancelled", trace) := by
  simp [runLoop, hc]

theorem runLoop_cons_noparams (env : Nat → StmtEnv) (ctxDone : Nat → Bool)
    (params : List (GoStr × List GoVal)) (q : GoStr) (keys : List GoStr)
    (i : Nat) (ids : ArgMap) (trace : List Step)
    (hc : ctxDone i = false) (hm : mapGet params q = none) :
    runLoop env ctxDone params (q :: keys) i ids trace =
      (.err ("query parameters not found for query at index " ++ toString i), trace) := by
  simp [runLoop, hc, hm]

theorem runLoop_cons_odd (env : Nat → StmtEnv) (ctxDone : Nat → Bool)
    (params : List (GoStr × List GoVal)) (q : GoStr) (keys : List GoStr)
    (i : Nat) (ids : ArgMap) (trace : List Step) (kvs : List GoVal)
    (hc : ctxDone i = false) (hm : mapGet params q = some kvs)
    (hodd : kvs.length % 2 = 1) :
    runLoop env ctxDone params (q :: keys) i ids trace =
      (.err ("failed to resolve parameters for query at index " ++ toString i ++ ": " ++
        "invalid key-value pairs: expected even number of arguments"), trace) := by
  simp [runLoop, hc, hm, PairsHook_odd _ ids qResult hodd]

theorem runLoop_cons_ok (env : Nat → StmtEnv) (ctxDone : Nat → Bool)
    (params : List (GoStr × List GoVal)) (q : GoStr) (keys : List GoStr)
    (i : Nat) (ids : ArgMap) (trace : List Step) (kvs : List GoVal) (v : GoVal)
    (hc : ctxDone i = false) (hm : mapGet params q = some kvs)
    (heven : kvs.length % 2 = 0) (ho : stepOutcome env i q = .ok v) :
    runLoop env ctxDone params (q :: keys) i ids trace =
      runLoop env ctxDone params keys (i + 1) (mapSet ids q v)
        (trace ++ [⟨i, q, pipelineDispatch q, ids, pairsHookLoop ids qResult kvs [], .ok v⟩]) := by
  simp [runLoop, hc, hm, PairsHook_even _ ids qResult heven, ho]

theorem runLoop_cons_err (env : Nat → StmtEnv) (ctxDone : Nat → Bool)
    (params : List (GoStr × List GoVal)) (q : GoStr) (keys : List GoStr)
    (i : Nat) (ids : ArgMap) (trace : List Step) (kvs : List GoVal) (e : String)
    (hc : ctxDone i = false) (hm : mapGet params q = some kvs)
    (heven : kvs.length % 2 = 0) (ho : stepOutcome env i q = .err e) :
    runLoop env ctxDone params (q :: keys) i ids trace =
      (.err ("failed to execute query at index " ++ toString i ++ ": " ++ e),
       trace ++ [⟨i, q, pipelineDispatch q, ids, pairsHookLoop ids qResult kvs [], .err e⟩]) := by
  simp [runLoop, hc, hm, PairsHook_even _ ids qResult heven, ho]

theorem runLoop_cons_panic (env : Nat → StmtEnv) (ctxDone : Nat → Bool)
    (params : List (GoStr × List GoVal)) (q : GoStr) (keys : List GoStr)
    (i : Nat) (ids : ArgMap) (trace : List Step) (kvs : List GoVal) (pv : GoVal)
    (hc : ctxDone i = false) (hm : mapGet params q = some kvs)
    (heven : kvs.length % 2 = 0) (ho : stepOutcome env i q = .panicked pv) :
    runLoop env ctxDone params (q :: keys) i ids trace =
      (.panicked pv,
       trace ++ [⟨i, q, pipelineDispatch q, ids, pairsHookLoop ids qResult kvs [], .panicked pv⟩]) := by
  simp [runLoop, hc, hm, PairsHook_even _ ids qResult heven, ho]

/-! ### Runner-loop induction lemmas -/

theorem runLoop_steps (env : Nat → StmtEnv) (ctxDone : Nat → Bool)
    (params : List (GoStr × List GoVal)) :
    ∀ (keys : List GoStr) (i : Nat) (ids : ArgMap) (trace : List Step)
      (res : GoResult ArgMap) (steps : List Step),
      runLoop env ctxDone params keys i ids trace = (res, steps) →
      ∃ post, steps = trace ++ post ∧
        ∀ st ∈ post, i ≤ st.idx ∧ st.idx < i + keys.length ∧
          st.exe = pipelineDispatch st.key ∧ st.out = stepOutcome env st.idx st.key := by
  intro keys
  induction keys with
  | nil =>
    intro i ids trace res steps heq
    rw [runLoop_nil] at heq
    injection heq with h1 h2
    subst h2
    exact ⟨[], by simp, by simp⟩
  | cons q keys ih =>
    intro i ids trace res steps heq
    cases hc : ctxDone i with
    | true =>
      rw [runLoop_cons_ctx env ctxDone params q keys i ids trace hc] at heq
      injection heq with h1 h2
      subst h1
      subst h2
      exact ⟨[], by simp, by simp⟩
    | false =>
      cases hm : mapGet params q with
      | none =>
        rw [runLoop_cons_noparams env ctxDone params q keys i ids trace hc hm] at heq
        injection heq with h1 h2
        subst h1
        subst h2
        exact ⟨[], by simp, by simp⟩
      | some kvs =>
        rcases Nat.mod_two_eq_zero_or_one kvs.length with heven | hodd
        · cases ho : stepOutcome env i q with
          | ok v =>
            rw [runLoop_cons_ok env ctxDone params q keys i ids trace kvs v hc hm heven ho] at heq
            obtain ⟨post, hpost, hmem⟩ := ih (i + 1) (mapSet ids q v)
              (trace ++ [⟨i, q, pipelineDispatch q, ids, pairsHookLoop ids qResult kvs [], .ok v⟩])
              res steps heq
            refine ⟨⟨i, q, pipelineDispatch q, ids, pairsHookLoop ids qResult kvs [], .ok v⟩ :: post,
              by rw [hpost]; simp, ?_⟩
            intro st hst
            rcases List.mem_cons.mp hst with rfl | hst'
            · exact ⟨Nat.le_refl i, by simp, rfl, ho.symm⟩
            · obtain ⟨h1, h2, h3, h4⟩ := hmem st hst'
              exact ⟨by omega, by simp only [List.length_cons]; omega, h3, h4⟩
          | err e =>
            rw [runLoop_cons_err env ctxDone params q keys i ids trace kvs e hc hm heven ho] at heq
            injection heq with h1 h2
            subst h1
            subst h2
            refine ⟨[⟨i, q, pipelineDispatch q, ids, pairsHookLoop ids qResult kvs [], .err e⟩],
              rfl, ?_⟩
            intro st hst
            rcases List.mem_singleton.mp hst with rfl
            exact ⟨Nat.le_refl i, by simp, rfl, ho.symm⟩
          | panicked pv =>
            rw [runLoop_cons_panic env ctxDone params q keys i ids trace kvs pv hc hm heven ho] at heq
            injection heq with h1 h2
            subst h1
            subst h2
            refine ⟨[⟨i, q, pipelineDispatch q, ids, pairsHookLoop ids qResult kvs [], .panicked pv⟩],
              rfl, ?_⟩
            intro st hst
            rcases List.mem_singleton.mp hst with rfl
            exact ⟨Nat.le_refl i, by simp, rfl, ho.symm⟩
        · rw [runLoop_cons_odd env ctxDone params q keys i ids trace kvs hc hm hodd] at heq
          injection heq with h1 h2
          subst h1
          subst h2
          exact ⟨[], by simp, by simp⟩

theorem runLoop_all_ok (env : Nat → StmtEnv) (ctxDone : Nat → Bool)
    (params : List (GoStr × List GoVal)) :
    ∀ (keys : List GoStr) (i : Nat) (ids : ArgMap) (trace : List Step),
      (∀ j, j < keys.length → stepOkB env ctxDone params (i + j) (keys.getD j []) = true) →
      ∃ finalIds post,
        runLoop env ctxDone params keys i ids trace = (.ok finalIds, trace ++ post) ∧
        (∀ q, q ∉ keys → mapGet finalIds q = mapGet ids q) ∧
        (keys.Nodup → (∀ q ∈ keys, mapGet ids q = none) →
          finalIds.length = ids.length + keys.length) ∧
        (keys.Nodup → ∀ j, j < keys.length →
          ∃ v, stepOutcome env (i + j) (keys.getD j []) = .ok v ∧
            mapGet finalIds (keys.getD j []) = some v) := by
  intro keys
  induction keys with
  | nil =>
    intro i ids trace hok
    exact ⟨ids, [], by simp [runLoop_nil], by simp, by simp, by simp⟩
  | cons q keys ih =>
    intro i ids trace hok
    have h0 := hok 0 (by simp)
    simp only [Nat.add_zero, List.getD_cons_zero] at h0
    rw [stepOkB_true_iff] at h0
    obtain ⟨hc, ⟨kvs, hm, heven⟩, ⟨v, ho⟩⟩ := h0
    rw [runLoop_cons_ok env ctxDone params q keys i ids trace kvs v hc hm heven ho]
    have hok' : ∀ j, j < keys.length →
        stepOkB env ctxDone params (i + 1 + j) (keys.getD j []) = true := by
      intro j hj
      have hh := hok (j + 1) (by simp only [List.length_cons]; omega)
      rw [show i + (j + 1) = i + 1 + j from by omega] at hh
      simpa only [List.getD_cons_succ] using hh
    obtain ⟨finalIds, post, heq, hother, hlen, hkey⟩ :=
      ih (i + 1) (mapSet ids q v)
        (trace ++ [⟨i, q, pipelineDispatch q, ids, pairsHookLoop ids qResult kvs [], .ok v⟩]) hok'
    refine ⟨finalIds,
      ⟨i, q, pipelineDispatch q, ids, pairsHookLoop ids qResult kvs [], .ok v⟩ :: post,
      by rw [heq]; simp, ?_, ?_, ?_⟩
    · intro q' hq'
      have hq'1 : q' ≠ q := fun hh => hq' (hh ▸ List.mem_cons_self q keys)
      have hq'2 : q' ∉ keys := fun hh => hq' (List.mem_cons_of_mem q hh)
      rw [hother q' hq'2, mapGet_mapSet_ne ids q q' v hq'1]
    · intro hnd hfresh
      have hndk : keys.Nodup := (List.nodup_cons.mp hnd).2
      have hqk : q ∉ keys := (List.nodup_cons.mp hnd).1
      have hfq : mapGet ids q = none := hfresh q (List.mem_cons_self q keys)
      have hfresh' : ∀ q' ∈ keys, mapGet (mapSet ids q v) q' = none := by
        intro q' hq'
        have hne : q' ≠ q := fun hh => hqk (hh ▸ hq')
        rw [mapGet_mapSet_ne ids q q' v hne]
        exact hfresh q' (List.mem_cons_of_mem q hq')
      rw [hlen hndk hfresh', mapSet_length_of_fresh ids q v hfq]
      simp only [List.length_cons]
      omega
    · intro hnd j hj
      cases j with
      | zero =>
        have hqk : q ∉ keys := (List.nodup_cons.mp hnd).1
        refine ⟨v, by simpa using ho, ?_⟩
        rw [List.getD_cons_zero, hother q hqk, mapGet_mapSet_self]
      | succ j' =>
        have hndk : keys.Nodup := (List.nodup_cons.mp hnd).2
        have hj' : j' < keys.length := by simp only [List.length_cons] at hj; omega
        obtain ⟨v', hv1, hv2⟩ := hkey hndk j' hj'
        refine ⟨v', ?_, ?_⟩
        · rw [List.getD_cons_succ, show i + (j' + 1) = i + 1 + j' from by omega]
          exact hv1
        · rw [List.getD_cons_succ]
          exact hv2

theorem runLoop_first_fail (env : Nat → StmtEnv) (ctxDone : Nat → Bool)
    (params : List (GoStr × List GoVal)) :
    ∀ (keys : List GoStr) (f i : Nat) (ids : ArgMap) (trace : List Step),
      f < keys.length →
      (∀ j, j < f → stepOkB env ctxDone params (i + j) (keys.getD j []) = true) →
      stepOkB env ctxDone params (i + f) (keys.getD f []) = false →
      ∃ res post,
        runLoop env ctxDone params keys i ids trace = (res, trace ++ post) ∧
        (∀ st ∈ post, st.idx ≤ i + f) ∧
        ((∃ e, res = .err e) ∨
         (∃ pv, res = .panicked pv ∧
            stepOutcome env (i + f) (keys.getD f []) = .panicked pv)) := by
  intro keys
  induction keys with
  | nil =>
    intro f i ids trace hf
    simp at hf
  | cons q keys ih =>
    intro f i ids trace hf hok hfail
    cases f with
    | zero =>
      simp only [Nat.add_zero, List.getD_cons_zero] at hfail ⊢
      cases hc : ctxDone i with
      | true =>
        exact ⟨.err "context cancelled", [],
          by rw [runLoop_cons_ctx env ctxDone params q keys i ids trace hc]; simp,
          by simp, Or.inl ⟨_, rfl⟩⟩
      | false =>
        cases hm : mapGet params q with
        | none =>
          exact ⟨.err ("query parameters not found for query at index " ++ toString i), [],
            by rw [runLoop_cons_noparams env ctxDone params q keys i ids trace hc hm]; simp,
            by simp, Or.inl ⟨_, rfl⟩⟩
        | some kvs =>
          rcases Nat.mod_two_eq_zero_or_one kvs.length with heven | hodd
          · cases ho : stepOutcome env i q with
            | ok v =>
              exfalso
              have : stepOkB env ctxDone params i q = true :=
                (stepOkB_true_iff env ctxDone params i q).mpr
                  ⟨hc, ⟨kvs, hm, heven⟩, ⟨v, ho⟩⟩
              rw [this] at hfail
              exact Bool.noConfusion hfail
            | err e =>
              refine ⟨.err ("failed to execute query at index " ++ toString i ++ ": " ++ e),
                [⟨i, q, pipelineDispatch q, ids, pairsHookLoop ids qResult kvs [], .err e⟩],
                by rw [runLoop_cons_err env ctxDone params q keys i ids trace kvs e hc hm heven ho],
                ?_, Or.inl ⟨_, rfl⟩⟩
              intro st hst
              rcases List.mem_singleton.mp hst with rfl
              exact Nat.le_refl i
            | panicked pv =>
              refine ⟨.panicked pv,
                [⟨i, q, pipelineDispatch q, ids, pairsHookLoop ids qResult kvs [], .panicked pv⟩],
                by rw [runLoop_cons_panic env ctxDone params q keys i ids trace kvs pv hc hm heven ho],
                ?_, ?_⟩
              · intro st hst
                rcases List.mem_singleton.mp hst with rfl
                exact Nat.le_refl i
              · exact Or.inr ⟨pv, rfl, rfl⟩
          · exact ⟨.err ("failed to resolve parameters for query at index " ++ toString i ++ ": " ++
              "invalid key-value pairs: expected even number of arguments"), [],
              by rw [runLoop_cons_odd env ctxDone params q keys i ids trace kvs hc hm hodd]; simp,
              by simp, Or.inl ⟨_, rfl⟩⟩
    | succ f' =>
      have h0 := hok 0 (Nat.succ_pos f')
      simp only [Nat.add_zero, List.getD_cons_zero] at h0
      rw [stepOkB_true_iff] at h0
      obtain ⟨hc, ⟨kvs, hm, heven⟩, ⟨v, ho⟩⟩ := h0
      rw [runLoop_cons_ok env ctxDone params q keys i ids trace kvs v hc hm heven ho]
      have hf' : f' < keys.length := by simp only [List.length_cons] at hf; omega
      have hok' : ∀ j, j < f' → stepOkB env ctxDone params (i + 1 + j) (keys.getD j []) = true := by
        intro j hj
        have hh := hok (j + 1) (by omega)
        rw [show i + (j + 1) = i + 1 + j from by omega] at hh
        simpa only [List.getD_cons_succ] using hh
      have hfail' : stepOkB env ctxDone params (i + 1 + f') (keys.getD f' []) = false := by
        have hh := hfail
        rw [show i + (f' + 1) = i + 1 + f' from by omega] at hh
        simpa only [List.getD_cons_succ] using hh
      obtain ⟨res, post, heq, hidx, hkind⟩ :=
        ih f' (i + 1) (mapSet ids q v)
          (trace ++ [⟨i, q, pipelineDispatch q, ids, pairsHookLoop ids qResult kvs [], .ok v⟩])
          hf' hok' hfail'
      refine ⟨res,
        ⟨i, q, pipelineDispatch q, ids, pairsHookLoop ids qResult kvs [], .ok v⟩ :: post,
        by rw [heq]; simp, ?_, ?_⟩
      · intro st hst
        rcases List.mem_cons.mp hst with rfl | hst'
        · show i ≤ i + (f' + 1)
          omega
        · have := hidx st hst'
          omega
      · rcases hkind with ⟨e, he⟩ | ⟨pv, hpv, hout⟩
        · exact Or.inl ⟨e, he⟩
        · refine Or.inr ⟨pv, hpv, ?_⟩
          rw [show i + (f' + 1) = i + 1 + f' from by omega]
          simpa only [List.getD_cons_succ] using hout

theorem runLoop_ok_all (env : Nat → StmtEnv) (ctxDone : Nat → Bool)
    (params : List (GoStr × List GoVal)) :
    ∀ (keys : List GoStr) (i : Nat) (ids : ArgMap) (trace : List Step)
      (finalIds : ArgMap) (steps : List Step),
      runLoop env ctxDone params keys i ids trace = (.ok finalIds, steps) →
      ∀ j, j < keys.length → stepOkB env ctxDone params (i + j) (keys.getD j []) = true := by
  intro keys
  induction keys with
  | nil =>
    intro i ids trace finalIds steps _ j hj
    simp at hj
  | cons q keys ih =>
    intro i ids trace finalIds steps heq j hj
    cases hc : ctxDone i with
    | true =>
      rw [runLoop_cons_ctx env ctxDone params q keys i ids trace hc] at heq
      exact absurd (congrArg Prod.fst heq) (by simp)
    | false =>
      cases hm : mapGet params q with
      | none =>
        rw [runLoop_cons_noparams env ctxDone params q keys i ids trace hc hm] at heq
        exact absurd (congrArg Prod.fst heq) (by simp)
      | some kvs =>
        rcases Nat.mod_two_eq_zero_or_one kvs.length with heven | hodd
        · cases ho : stepOutcome env i q with
          | ok v =>
            rw [runLoop_cons_ok env ctxDone params q keys i ids trace kvs v hc hm heven ho] at heq
            cases j with
            | zero =>
              simp only [Nat.add_zero, List.getD_cons_zero]
              exact (stepOkB_true_iff env ctxDone params i q).mpr
                ⟨hc, ⟨kvs, hm, heven⟩, ⟨v, ho⟩⟩
            | succ j' =>
              have hj' : j' < keys.length := by simp only [List.length_cons] at hj; omega
              have hh := ih (i + 1) (mapSet ids q v)
                (trace ++ [⟨i, q, pipelineDispatch q, ids, pairsHookLoop ids qResult kvs [], .ok v⟩])
                finalIds steps heq j' hj'
              rw [show i + (j' + 1) = i + 1 + j' from by omega]
              simpa only [List.getD_cons_succ] using hh
          | err e =>
            rw [runLoop_cons_err env ctxDone params q keys i ids trace kvs e hc hm heven ho] at heq
            exact absurd (congrArg Prod.fst heq) (by simp)
          | panicked pv =>
            rw [runLoop_cons_panic env ctxDone params q keys i ids trace kvs pv hc hm heven ho] at heq
            exact absurd (congrArg Prod.fst heq) (by simp)
        · rw [runLoop_cons_odd env ctxDone params q keys i ids trace kvs hc hm hodd] at heq
          exact absurd (congrArg Prod.fst heq) (by simp)

/-! ### Trace-resolution invariant -/

/-- The entry recorded at trace position `j` resolved its arguments with
exactly the identifiers accumulated from the entries executed strictly
before it. -/
def resolvedAt (params : List (GoStr × List GoVal)) (steps : List Step) (j : Nat) : Prop :=
  (steps.getD j step0).idsBefore = idsOfSteps (steps.take j) ∧
  PairsHook ((mapGet params (steps.getD j step0).key).getD [])
    ((steps.getD j step0).idsBefore) qResult = .ok ((steps.getD j step0).args)

theorem idsOfSteps_append (l : List Step) (st : Step) :
    idsOfSteps (l ++ [st]) =
      match st.out with
      | .ok v => mapSet (idsOfSteps l) st.key v
      | _ => idsOfSteps l := by
  unfold idsOfSteps
  rw [List.foldl_append]
  simp only [List.foldl_cons, List.foldl_nil]

theorem resolvedAt_append (params : List (GoStr × List GoVal)) (trace : List Step) (st : Step)
    (hinv : ∀ j, j < trace.length → resolvedAt params trace j)
    (hids : st.idsBefore = idsOfSteps trace)
    (hargs : PairsHook ((mapGet params st.key).getD []) st.idsBefore qResult = .ok st.args) :
    ∀ j, j < (trace ++ [st]).length → resolvedAt params (trace ++ [st]) j := by
  intro j hj
  simp only [List.length_append, List.length_singleton] at hj
  rcases Nat.lt_or_ge j trace.length with hlt | hge
  · have hgd : (trace ++ [st]).getD j step0 = trace.getD j step0 :=
      List.getD_append trace [st] step0 j hlt
    have htk : (trace ++ [st]).take j = trace.take j :=
      List.take_append_of_le_length (Nat.le_of_lt hlt)
    unfold resolvedAt
    rw [hgd, htk]
    exact hinv j hlt
  · have hj' : j = trace.length := by omega
    subst hj'
    have hgd : (trace ++ [st]).getD trace.length step0 = st := by
      rw [List.getD_append_right trace [st] step0 trace.length (Nat.le_refl _)]
      simp
    have htk : (trace ++ [st]).take trace.length = trace := List.take_left trace [st]
    unfold resolvedAt
    rw [hgd, htk, hids]
    exact ⟨rfl, by rw [← hids]; exact hargs⟩

theorem runLoop_resolution (env : Nat → StmtEnv) (ctxDone : Nat → Bool)
    (params : List (GoStr × List GoVal)) :
    ∀ (keys : List GoStr) (i : Nat) (ids : ArgMap) (trace : List Step)
      (res : GoResult ArgMap) (steps : List Step),
      runLoop env ctxDone params keys i ids trace = (res, steps) →
      ids = idsOfSteps trace →
      (∀ j, j < trace.length → resolvedAt params trace j) →
      ∀ j, j < steps.length → resolvedAt params steps j := by
  intro keys
  induction keys with
  | nil =>
    intro i ids trace res steps heq hids hinv
    rw [runLoop_nil] at heq
    injection heq with h1 h2
    subst h2
    exact hinv
  | cons q keys ih =>
    intro i ids trace res steps heq hids hinv
    cases hc : ctxDone i with
    | true =>
      rw [runLoop_cons_ctx env ctxDone params q keys i ids trace hc] at heq
      injection heq with h1 h2
      subst h2
      exact hinv
    | false =>
      cases hm : mapGet params q with
      | none =>
        rw [runLoop_cons_noparams env ctxDone params q keys i ids trace hc hm] at heq
        injection heq with h1 h2
        subst h2
        exact hinv
      | some kvs =>
        rcases Nat.mod_two_eq_zero_or_one kvs.length with heven | hodd
        · have hargs : PairsHook ((mapGet params q).getD []) ids qResult =
              .ok (pairsHookLoop ids qResult kvs []) := by
            rw [hm]
            exact PairsHook_even kvs ids qResult heven
          cases ho : stepOutcome env i q with
          | ok v =>
            rw [runLoop_cons_ok env ctxDone params q keys i ids trace kvs v hc hm heven ho] at heq
            refine ih (i + 1) (mapSet ids q v)
              (trace ++ [⟨i, q, pipelineDispatch q, ids, pairsHookLoop ids qResult kvs [], .ok v⟩])
              res steps heq ?_ ?_
            · rw [idsOfSteps_append]
              rw [← hids]
            · exact resolvedAt_append params trace _ hinv hids hargs
          | err e =>
            rw [runLoop_cons_err env ctxDone params q keys i ids trace kvs e hc hm heven ho] at heq
            injection heq with h1 h2
            subst h2
            exact resolvedAt_append params trace _ hinv hids hargs
          | panicked pv =>
            rw [runLoop_cons_panic env ctxDone params q keys i ids trace kvs pv hc hm heven ho] at heq
            injection heq with h1 h2
            subst h2
            exact resolvedAt_append params trace _ hinv hids hargs
        · rw [runLoop_cons_odd env ctxDone params q keys i ids trace kvs hc hm hodd] at heq
          injection heq with h1 h2
          subst h2
          exact hinv

theorem runPipeline_resolution (env : Nat → StmtEnv) (ctxDone : Nat → Bool)
    (txIsNil : Bool) (p : Pipeline) (res : GoResult ArgMap) (steps : List Step)
    (heq : runPipeline env ctxDone txIsNil p = (res, steps)) :
    ∀ j, j < steps.length → resolvedAt p.queryParameters steps j := by
  unfold runPipeline at heq
  by_cases ht : txIsNil = true
  · rw [if_pos ht] at heq
    injection heq with h1 h2
    subst h2
    intro j hj
    simp at hj
  · rw [if_neg ht] at heq
    by_cases hz : p.queryKeys.length = 0
    · rw [if_pos hz] at heq
      injection heq with h1 h2
      subst h2
      intro j hj
      simp at hj
    · rw [if_neg hz] at heq
      exact runLoop_resolution env ctxDone p.queryParameters p.queryKeys 0 [] [] res steps heq
        rfl (by intro j hj; simp at hj)

/-! ### Resolver lookup lemmas -/

theorem pairsHookLoop_lookup (ids : ArgMap) (hook : GoStr) :
    ∀ (n : Nat) (kv : List GoVal) (acc : ArgMap) (key : GoStr) (w : GoVal),
      kv.length ≤ n →
      mapGet (pairsHookLoop ids hook kv acc) key = some w →
      (∃ j, 2 * j + 1 < kv.length ∧ goFormat (kv.getD (2 * j) .vnil) = key ∧
        w = hookResolve ids hook (kv.getD (2 * j + 1) .vnil)) ∨
      mapGet acc key = some w := by
  intro n
  induction n with
  | zero =>
    intro kv acc key w hle hget
    have hkv : kv = [] := List.length_eq_zero.mp (Nat.le_zero.mp hle)
    subst hkv
    exact Or.inr hget
  | succ n ih =>
    intro kv acc key w hle hget
    match kv with
    | [] => exact Or.inr hget
    | [x] => exact Or.inr hget
    | k :: v :: rest =>
      have hlen : rest.length ≤ n := by
        simp only [List.length_cons] at hle
        omega
      have hget' : mapGet (pairsHookLoop ids hook rest
          (mapSet acc (goFormat k) (hookResolve ids hook v))) key = some w := hget
      have hrec := ih rest (mapSet acc (goFormat k) (hookResolve ids hook v)) key w hlen hget'
      rcases hrec with ⟨j, hj1, hj2, hj3⟩ | hacc
      · refine Or.inl ⟨j + 1, ?_, ?_, ?_⟩
        · simp only [List.length_cons]
          omega
        · rw [show 2 * (j + 1) = 2 * j + 1 + 1 from by omega,
            List.getD_cons_succ, List.getD_cons_succ]
          exact hj2
        · rw [show 2 * (j + 1) + 1 = 2 * j + 1 + 1 + 1 from by omega,
            List.getD_cons_succ, List.getD_cons_succ]
          exact hj3
      · by_cases hk : key = goFormat k
        · subst hk
          rw [mapGet_mapSet_self] at hacc
          injection hacc with hw
          refine Or.inl ⟨0, ?_, rfl, hw.symm⟩
          simp only [List.length_cons]
          omega
        · rw [mapGet_mapSet_ne acc (goFormat k) key (hookResolve ids hook v) hk] at hacc
          exact Or.inr hacc

theorem pairsLoop_isSome :
    ∀ (n : Nat) (kv : List GoVal) (acc : ArgMap) (key : GoStr),
      kv.length ≤ n →
      ((mapGet (pairsLoop kv acc) key).isSome = true ↔
        (∃ j, 2 * j + 1 < kv.length ∧ goFormat (kv.getD (2 * j) .vnil) = key) ∨
        (mapGet acc key).isSome = true) := by
  intro n
  induction n with
  | zero =>
    intro kv acc key hle
    have hkv : kv = [] := List.length_eq_zero.mp (Nat.le_zero.mp hle)
    subst hkv
    simp [pairsLoop]
  | succ n ih =>
    intro kv acc key hle
    match kv with
    | [] => simp [pairsLoop]
    | [x] =>
      show (mapGet acc key).isSome = true ↔ _
      constructor
      · exact fun h => Or.inr h
      · rintro (⟨j, hj, -⟩ | h)
        · simp at hj
        · exact h
    | k :: v :: rest =>
      have hlen : rest.length ≤ n := by
        simp only [List.length_cons] at hle
        omega
      have hrec := ih rest (mapSet acc (goFormat k) v) key hlen
      show (mapGet (pairsLoop rest (mapSet acc (goFormat k) v)) key).isSome = true ↔ _
      rw [hrec, mapGet_mapSet_isSome]
      constructor
      · rintro (⟨j, hj1, hj2⟩ | hk | hacc)
        · refine Or.inl ⟨j + 1, ?_, ?_⟩
          · simp only [List.length_cons]
            omega
          · rw [show 2 * (j + 1) = 2 * j + 1 + 1 from by omega,
              List.getD_cons_succ, List.getD_cons_succ]
            exact hj2
        · exact Or.inl ⟨0, by simp only [List.length_cons]; omega, hk.symm⟩
        · exact Or.inr hacc
      · rintro (⟨j, hj1, hj2⟩ | hacc)
        · cases j with
          | zero => exact Or.inr (Or.inl hj2.symm)
          | succ j' =>
            refine Or.inl ⟨j', ?_, ?_⟩
            · simp only [List.length_cons] at hj1
              omega
            · rw [show 2 * (j' + 1) = 2 * j' + 1 + 1 from by omega,
                List.getD_cons_succ, List.getD_cons_succ] at hj2
              exact hj2
        · exact Or.inr (Or.inr hacc)

theorem pairsHookLoop_isSome (ids : ArgMap) (hook : GoStr) :
    ∀ (n : Nat) (kv : List GoVal) (acc : ArgMap) (key : GoStr),
      kv.length ≤ n →
      ((mapGet (pairsHookLoop ids hook kv acc) key).isSome = true ↔
        (∃ j, 2 * j + 1 < kv.length ∧ goFormat (kv.getD (2 * j) .vnil) = key) ∨
        (mapGet acc key).isSome = true) := by
  intro n
  induction n with
  | zero =>
    intro kv acc key hle
    have hkv : kv = [] := List.length_eq_zero.mp (Nat.le_zero.mp hle)
    subst hkv
    simp [pairsHookLoop]
  | succ n ih =>
    intro kv acc key hle
    match kv with
    | [] => simp [pairsHookLoop]
    | [x] =>
      show (mapGet acc key).isSome = true ↔ _
      constructor
      · exact fun h => Or.inr h
      · rintro (⟨j, hj, -⟩ | h)
        · simp at hj
        · exact h
    | k :: v :: rest =>
      have hlen : rest.length ≤ n := by
        simp only [List.length_cons] at hle
        omega
      have hrec := ih rest (mapSet acc (goFormat k) (hookResolve ids hook v)) key hlen
      show (mapGet (pairsHookLoop ids hook rest
        (mapSet acc (goFormat k) (hookResolve ids hook v))) key).isSome = true ↔ _
      rw [hrec, mapGet_mapSet_isSome]
      constructor
      · rintro (⟨j, hj1, hj2⟩ | hk | hacc)
        · refine Or.inl ⟨j + 1, ?_, ?_⟩
          · simp only [List.length_cons]
            omega
          · rw [show 2 * (j + 1) = 2 * j + 1 + 1 from by omega,
              List.getD_cons_succ, List.getD_cons_succ]
            exact hj2
        · exact Or.inl ⟨0, by simp only [List.length_cons]; omega, hk.symm⟩
        · exact Or.inr hacc
      · rintro (⟨j, hj1, hj2⟩ | hacc)
        · cases j with
          | zero => exact Or.inr (Or.inl hj2.symm)
          | succ j' =>
            refine Or.inl ⟨j', ?_, ?_⟩
            · simp only [List.length_cons] at hj1
              omega
            · rw [show 2 * (j' + 1) = 2 * j' + 1 + 1 from by omega,
                List.getD_cons_succ, List.getD_cons_succ] at hj2
              exact hj2
        · exact Or.inr (Or.inr hacc)

/-- The marker built from the reserved hook and a nonempty key resolves to
exactly the identifier recorded under that key, or nil when absent. -/
theorem hookResolve_marker (ids : ArgMap) (k : GoStr) (hk : k ≠ []) :
    hookResolve ids qResult (.vstr (qResult ++ k)) = (mapGet ids k).getD .vnil := by
  have hlen : qResult.length = 11 := by decide
  have h1 : 11 < (qResult ++ k).length := by
    simp only [List.length_append, hlen]
    have : 0 < k.length := List.length_pos.mpr hk
    omega
  have h2 : (qResult ++ k).take 11 = qResult := by
    rw [← hlen]
    exact List.take_left qResult k
  have h3 : (qResult ++ k).drop 11 = k := by
    rw [← hlen]
    exact List.drop_left qResult k
  simp only [hookResolve]
  rw [if_pos ⟨h1, h2⟩, h3]

/-! ### Classifier characterization -/

theorem isPrefixOf_eq_of_length {l1 l2 : GoStr} (h : l1.length = l2.length) :
    l1.isPrefixOf l2 = true ↔ l1 = l2 := by
  rw [List.isPrefixOf_iff_prefix]
  constructor
  · intro hp
    exact hp.eq_of_length h
  · rintro rfl
    exact List.prefix_refl l1

theorem queryType_iffs (q : GoStr) :
    (queryType q = qInsert ↔
      6 ≤ (goTrim q).length ∧ goToLower ((goTrim q).take 6) = qInsert) ∧
    (queryType q = qUpdate ↔
      6 ≤ (goTrim q).length ∧ goToLower ((goTrim q).take 6) = qUpdate) ∧
    (queryType q = qDelete ↔
      6 ≤ (goTrim q).length ∧ goToLower ((goTrim q).take 6) = qDelete) ∧
    (queryType q = qSelect ↔
      ¬(6 ≤ (goTrim q).length ∧ goToLower ((goTrim q).take 6) = qInsert) ∧
      ¬(6 ≤ (goTrim q).length ∧ goToLower ((goTrim q).take 6) = qUpdate) ∧
      ¬(6 ≤ (goTrim q).length ∧ goToLower ((goTrim q).take 6) = qDelete)) ∧
    ((goTrim q).length < 6 → queryType q = qSelect) := by
  by_cases hlen : (goTrim q).length < 6
  · have hqt : queryType q = qSelect := by
      simp only [queryType]
      rw [if_pos hlen]
    refine ⟨?_, ?_, ?_, ?_, fun _ => hqt⟩
    · exact ⟨fun h => absurd (hqt.symm.trans h) (by decide),
        fun ⟨h6, _⟩ => absurd h6 (by omega)⟩
    · exact ⟨fun h => absurd (hqt.symm.trans h) (by decide),
        fun ⟨h6, _⟩ => absurd h6 (by omega)⟩
    · exact ⟨fun h => absurd (hqt.symm.trans h) (by decide),
        fun ⟨h6, _⟩ => absurd h6 (by omega)⟩
    · exact ⟨fun _ => ⟨fun ⟨h6, _⟩ => absurd h6 (by omega),
        fun ⟨h6, _⟩ => absurd h6 (by omega), fun ⟨h6, _⟩ => absurd h6 (by omega)⟩,
        fun _ => hqt⟩
  · have h6 : 6 ≤ (goTrim q).length := by omega
    have hqt : queryType q =
        (if qInsert.isPrefixOf (goToLower ((goTrim q).take 6)) then qInsert
         else if qUpdate.isPrefixOf (goToLower ((goTrim q).take 6)) then qUpdate
         else if qDelete.isPrefixOf (goToLower ((goTrim q).take 6)) then qDelete
         else qSelect) := by
      simp only [queryType]
      rw [if_neg hlen]
    have hlplen : (goToLower ((goTrim q).take 6)).length = 6 := by
      unfold goToLower
      rw [List.length_map, List.length_take]
      exact min_eq_left h6
    have hIns : qInsert.isPrefixOf (goToLower ((goTrim q).take 6)) = true ↔
        qInsert = goToLower ((goTrim q).take 6) :=
      isPrefixOf_eq_of_length (by rw [hlplen]; decide)
    have hUpd : qUpdate.isPrefixOf (goToLower ((goTrim q).take 6)) = true ↔
        qUpdate = goToLower ((goTrim q).take 6) :=
      isPrefixOf_eq_of_length (by rw [hlplen]; decide)
    have hDel : qDelete.isPrefixOf (goToLower ((goTrim q).take 6)) = true ↔
        qDelete = goToLower ((goTrim q).take 6) :=
      isPrefixOf_eq_of_length (by rw [hlplen]; decide)
    by_cases h1 : qInsert = goToLower ((goTrim q).take 6)
    · have hq : queryType q = qInsert := by
        rw [hqt, if_pos (hIns.mpr h1)]
      refine ⟨⟨fun _ => ⟨h6, h1.symm⟩, fun _ => hq⟩, ?_, ?_, ?_, fun hlt => absurd hlt hlen⟩
      · refine ⟨fun h => absurd (hq.symm.trans h) (by decide), ?_⟩
        rintro ⟨-, h⟩
        exact absurd (h1.trans h) (by decide)
      · refine ⟨fun h => absurd (hq.symm.trans h) (by decide), ?_⟩
        rintro ⟨-, h⟩
        exact absurd (h1.trans h) (by decide)
      · refine ⟨fun h => absurd (hq.symm.trans h) (by decide), ?_⟩
        rintro ⟨hni, -, -⟩
        exact absurd ⟨h6, h1.symm⟩ hni
    · by_cases h2 : qUpdate = goToLower ((goTrim q).take 6)
      · have hq : queryType q = qUpdate := by
          rw [hqt, if_neg (fun hb => h1 (hIns.mp hb)), if_pos (hUpd.mpr h2)]
        refine ⟨?_, ⟨fun _ => ⟨h6, h2.symm⟩, fun _ => hq⟩, ?_, ?_, fun hlt => absurd hlt hlen⟩
        · refine ⟨fun h => absurd (hq.symm.trans h) (by decide), ?_⟩
          rintro ⟨-, h⟩
          exact absurd (h2.trans h) (by decide)
        · refine ⟨fun h => absurd (hq.symm.trans h) (by decide), ?_⟩
          rintro ⟨-, h⟩
          exact absurd (h2.trans h) (by decide)
        · refine ⟨fun h => absurd (hq.symm.trans h) (by decide), ?_⟩
          rintro ⟨-, hnu, -⟩
          exact absurd ⟨h6, h2.symm⟩ hnu
      · by_cases h3 : qDelete = goToLower ((goTrim q).take 6)
        · have hq : queryType q = qDelete := by
            rw [hqt, if_neg (fun hb => h1 (hIns.mp hb)), if_neg (fun hb => h2 (hUpd.mp hb)),
              if_pos (hDel.mpr h3)]
          refine ⟨?_, ?_, ⟨fun _ => ⟨h6, h3.symm⟩, fun _ => hq⟩, ?_, fun hlt => absurd hlt hlen⟩
          · refine ⟨fun h => absurd (hq.symm.trans h) (by decide), ?_⟩
            rintro ⟨-, h⟩
            exact absurd (h3.trans h) (by decide)
          · refine ⟨fun h => absurd (hq.symm.trans h) (by decide), ?_⟩
            rintro ⟨-, h⟩
            exact absurd (h3.trans h) (by decide)
          · refine ⟨fun h => absurd (hq.symm.trans h) (by decide), ?_⟩
            rintro ⟨-, -, hnd⟩
            exact absurd ⟨h6, h3.symm⟩ hnd
        · have hq : queryType q = qSelect := by
            rw [hqt, if_neg (fun hb => h1 (hIns.mp hb)), if_neg (fun hb => h2 (hUpd.mp hb)),
              if_neg (fun hb => h3 (hDel.mp hb))]
          refine ⟨?_, ?_, ?_, ?_, fun hlt => absurd hlt hlen⟩
          · refine ⟨fun h => absurd (hq.symm.trans h) (by decide), ?_⟩
            rintro ⟨-, h⟩
            exact absurd h.symm h1
          · refine ⟨fun h => absurd (hq.symm.trans h) (by decide), ?_⟩
            rintro ⟨-, h⟩
            exact absurd h.symm h2
          · refine ⟨fun h => absurd (hq.symm.trans h) (by decide), ?_⟩
            rintro ⟨-, h⟩
            exact absurd h.symm h3
          · exact ⟨fun _ => ⟨fun hp => h1 hp.2.symm, fun hp => h2 hp.2.symm,
              fun hp => h3 hp.2.symm⟩, fun _ => hq⟩

/-! ### Transaction-runner characterization -/

theorem addFirstPipeline_length_pos (p : Pipeline) (q : GoStr) (kv : List GoVal)
    (h : isTrans p = true) : 0 < (addFirstPipeline p q kv).queryKeys.length := by
  simp only [isTrans, decide_eq_true_eq] at h
  unfold addFirstPipeline
  by_cases hq : q = []
  · rw [if_pos hq]
    omega
  · rw [if_neg hq]
    simp

theorem runPipeline_runLoop (env : Nat → StmtEnv) (ctxDone : Nat → Bool) (p : Pipeline)
    (h : ¬ p.queryKeys.length = 0) :
    runPipeline env ctxDone false p =
      runLoop env ctxDone p.queryParameters p.queryKeys 0 [] [] := by
  unfold runPipeline
  rw [if_neg (by simp), if_neg h]

theorem ExecInTx_guard (env : Nat → StmtEnv) (ctxDone : Nat → Bool)
    (be ce : Option String) (e : ExecQuery) (h : isTrans e.pipeline = false) :
    ExecInTx env ctxDone be ce e =
      (.ret none (some "invalid operation: no transaction pipeline found"), ⟨0, 0, 0, []⟩) := by
  unfold ExecInTx
  rw [if_pos (by simp [h])]

theorem ExecInTx_beginFail (env : Nat → StmtEnv) (ctxDone : Nat → Bool)
    (be : String) (ce : Option String) (e : ExecQuery) (h : isTrans e.pipeline = true) :
    ExecInTx env ctxDone (some be) ce e = (.ret none (some be), ⟨1, 0, 0, []⟩) := by
  unfold ExecInTx
  rw [if_neg (by simp [h])]

theorem ExecInTx_run (env : Nat → StmtEnv) (ctxDone : Nat → Bool) (ce : Option String)
    (e : ExecQuery) (res : GoResult ArgMap) (steps : List Step)
    (hTrans : isTrans e.pipeline = true)
    (hrp : runPipeline env ctxDone false
      (addFirstPipeline e.pipeline e.query e.keyValuePairs) = (res, steps)) :
    ExecInTx env ctxDone none ce e =
      (match res with
       | .panicked pv => ((.panicked pv : TxReturn), (⟨1, 0, 1, steps⟩ : TxLog))
       | .err msg => (.ret none (some msg), ⟨1, 0, 1, steps⟩)
       | .ok ids =>
         match ce with
         | some c => (.ret (some ids) (some c), ⟨1, 1, 0, steps⟩)
         | none => (.ret (some ids) none, ⟨1, 1, 0, steps⟩)) := by
  unfold ExecInTx
  rw [if_neg (by simp [hTrans])]
  simp only [hrp]
  cases res with
  | ok ids => cases ce <;> rfl
  | err msg => rfl
  | panicked pv => rfl

theorem runPipeline_steps (env : Nat → StmtEnv) (ctxDone : Nat → Bool) (txIsNil : Bool)
    (p : Pipeline) (res : GoResult ArgMap) (steps : List Step)
    (heq : runPipeline env ctxDone txIsNil p = (res, steps)) :
    ∀ st ∈ steps, st.idx < p.queryKeys.length ∧
      st.exe = pipelineDispatch st.key ∧ st.out = stepOutcome env st.idx st.key := by
  unfold runPipeline at heq
  by_cases ht : txIsNil = true
  · rw [if_pos ht] at heq
    injection heq with h1 h2
    subst h2
    intro st hst
    simp at hst
  · rw [if_neg ht] at heq
    by_cases hz : p.queryKeys.length = 0
    · rw [if_pos hz] at heq
      injection heq with h1 h2
      subst h2
      intro st hst
      simp at hst
    · rw [if_neg hz] at heq
      obtain ⟨post, hpost, hmem⟩ :=
        runLoop_steps env ctxDone p.queryParameters p.queryKeys 0 [] [] res steps heq
      intro st hst
      rw [hpost] at hst
      simp only [List.nil_append] at hst
      obtain ⟨-, h2, h3, h4⟩ := hmem st hst
      exact ⟨by omega, h3, h4⟩

/-! ### Concrete fixtures -/

/-- Driver oracle in which every statement succeeds. -/
def goodStmt : StmtEnv := ⟨none, none, none, .affected 1, none, .vint 7⟩

/-- Driver oracle in which execution fails. -/
def badStmt : StmtEnv := ⟨none, none, some "boom", .affected 0, none, .vnil⟩

/-- Per-position oracle: all statements succeed. -/
def envOkAll : Nat → StmtEnv := fun _ => goodStmt

/-- Per-position oracle: the statement at position 1 fails, the rest
succeed. -/
def envFailAt1 : Nat → StmtEnv := fun i => if i = 1 then badStmt else goodStmt

/-- A context that is never cancelled. -/
def ctxNever : Nat → Bool := fun _ => false

/-- Pipeline built by three append calls whose disambiguated third key
collides with the first key. -/
def pBug : Pipeline :=
  addPipeline
    (addPipeline (addPipeline NewPipeline (("a/*2*/").data) [.vstr (("x").data), .vint 1])
      (("a").data) [.vstr (("x").data), .vint 2])
    (("a").data) [.vstr (("x").data), .vint 3]

/-- Builder state whose pipeline is `pBug`. -/
def eBug : ExecQuery := ⟨("b").data, [], pBug⟩

/-- Builder state with one originating update and one chained update. -/
def eTwo : ExecQuery :=
  ⟨("update t set a=1").data, [],
   addPipeline NewPipeline (("update t set b=2").data) []⟩

/-- Builder state with an empty pipeline. -/
def eEmpty : ExecQuery := ⟨("b").data, [], NewPipeline⟩

/-! ### Claim theorems -/

/-- Claim C1 (code evaluation at the failing input): adding the statements
`a/*2*/`, `a`, `a` in that order makes the disambiguator regenerate the
already-present key `a/*2*/`: the ordered key sequence holds a duplicate
key, the first entry's parameters are overwritten, and `uniqueQuery`
itself returns a key that already exists, contradicting the claimed
pairwise-distinctness invariant. -/
theorem uniqueQuery_collision_eval :
    pBug.queryKeys = [(("a/*2*/").data), (("a").data), (("a/*2*/").data)] ∧
    ¬ pBug.queryKeys.Nodup ∧
    mapGet pBug.queryParameters (("a/*2*/").data) =
      some [.vstr (("x").data), .vint 3] ∧
    uniqueQuery
      (addPipeline (addPipeline NewPipeline (("a/*2*/").data) [.vstr (("x").data), .vint 1])
        (("a").data) [.vstr (("x").data), .vint 2])
      (("a").data) = ("a/*2*/").data := by decide

/-- Claim C5 (counterexample): running the transaction runner on an empty
pipeline does not return an empty Execution Result: it returns no result
at all together with an invalid-operation error (though indeed without
opening a transaction). -/
theorem execInTx_empty_pipeline_counterexample :
    ExecInTx envOkAll ctxNever none none eEmpty =
      (.ret none (some "invalid operation: no transaction pipeline found"), ⟨0, 0, 0, []⟩) ∧
    (ExecInTx envOkAll ctxNever none none eEmpty).1 ≠ .ret (some []) none := by decide

/-- Claim C5 (amended): for every invocation of the transaction runner on an
empty pipeline, an invalid-operation error is returned immediately with no
Execution Result, and no transaction is opened (no begin, commit, or
rollback call is made and no entry executes). -/
theorem execInTx_empty_pipeline_error :
    ∀ (env : Nat → StmtEnv) (ctxDone : Nat → Bool) (be ce : Option String) (e : ExecQuery),
      e.pipeline.queryKeys = [] →
      ExecInTx env ctxDone be ce e =
        (.ret none (some "invalid operation: no transaction pipeline found"),
         ⟨0, 0, 0, []⟩) := by
  intro env ctxDone be ce e hempty
  apply ExecInTx_guard
  simp [isTrans, hempty]

/-- Witness for claim C5: the amended statement applied to a concrete empty
pipeline. -/
theorem execInTx_empty_pipeline_error_witness :
    ExecInTx envFailAt1 ctxNever (some "nobegin") (some "nocommit") eEmpty =
      (.ret none (some "invalid operation: no transaction pipeline found"), ⟨0, 0, 0, []⟩) :=
  execInTx_empty_pipeline_error envFailAt1 ctxNever (some "nobegin") (some "nocommit") eEmpty
    (by decide)

/-- Claim C6: both argument resolvers fail on every odd-length sequence with the
invalid-argument-count error and produce no mapping, and on every
even-length sequence they succeed, the resulting map holding exactly the
string coercions of the even-position items as keys. -/
theorem Pairs_PairsHook_parity :
    ∀ (kv : List GoVal) (ids : ArgMap) (hook : GoStr),
      (kv.length % 2 = 1 →
        Pairs kv = .error "invalid key-value pairs: expected even number of arguments" ∧
        PairsHook kv ids hook =
          .error "invalid key-value pairs: expected even number of arguments") ∧
      (kv.length % 2 = 0 →
        Pairs kv = .ok (pairsLoop kv []) ∧
        PairsHook kv ids hook = .ok (pairsHookLoop ids hook kv []) ∧
        (∀ key, (mapGet (pairsLoop kv []) key).isSome = true ↔
          ∃ j, 2 * j + 1 < kv.length ∧ goFormat (kv.getD (2 * j) .vnil) = key) ∧
        (∀ key, (mapGet (pairsHookLoop ids hook kv []) key).isSome = true ↔
          ∃ j, 2 * j + 1 < kv.length ∧ goFormat (kv.getD (2 * j) .vnil) = key)) := by
  intro kv ids hook
  constructor
  · intro hodd
    exact ⟨Pairs_odd kv hodd, PairsHook_odd kv ids hook hodd⟩
  · intro heven
    refine ⟨Pairs_even kv heven, PairsHook_even kv ids hook heven, ?_, ?_⟩
    · intro key
      rw [pairsLoop_isSome kv.length kv [] key (Nat.le_refl _)]
      simp [mapGet]
    · intro key
      rw [pairsHookLoop_isSome ids hook kv.length kv [] key (Nat.le_refl _)]
      simp [mapGet]

/-- Witness for claim C6: a concrete odd-length sequence is rejected and a concrete
even-length sequence produces a map holding its coerced key. -/
theorem Pairs_PairsHook_parity_witness :
    Pairs [GoVal.vint 5] =
      .error "invalid key-value pairs: expected even number of arguments" ∧
    ∃ m, Pairs [GoVal.vstr (("a").data), GoVal.vint 1] = .ok m ∧
      (mapGet m (("a").data)).isSome = true := by
  constructor
  · exact ((Pairs_PairsHook_parity [GoVal.vint 5] [] qResult).1 (by decide)).1
  · obtain ⟨h1, h2, h3, h4⟩ := (Pairs_PairsHook_parity
      [GoVal.vstr (("a").data), GoVal.vint 1] [] qResult).2 (by decide)
    refine ⟨pairsLoop [GoVal.vstr (("a").data), GoVal.vint 1] [], h1, ?_⟩
    rw [h3 (("a").data)]
    exact ⟨0, by decide, by decide⟩

/-- Claim C7: the classifier returns insert, update, or delete exactly when the
lowercased first six characters of the trimmed text equal that keyword,
and select in every other case, including all trimmed texts shorter than
six characters; the three concrete scenario examples evaluate as the claim
states. -/
theorem queryType_classification :
    (∀ q : GoStr,
      (queryType q = qInsert ↔
        6 ≤ (goTrim q).length ∧ goToLower ((goTrim q).take 6) = qInsert) ∧
      (queryType q = qUpdate ↔
        6 ≤ (goTrim q).length ∧ goToLower ((goTrim q).take 6) = qUpdate) ∧
      (queryType q = qDelete ↔
        6 ≤ (goTrim q).length ∧ goToLower ((goTrim q).take 6) = qDelete) ∧
      (queryType q = qSelect ↔
        ¬(6 ≤ (goTrim q).length ∧ goToLower ((goTrim q).take 6) = qInsert) ∧
        ¬(6 ≤ (goTrim q).length ∧ goToLower ((goTrim q).take 6) = qUpdate) ∧
        ¬(6 ≤ (goTrim q).length ∧ goToLower ((goTrim q).take 6) = qDelete)) ∧
      ((goTrim q).length < 6 → queryType q = qSelect)) ∧
    queryType (("  select * from t").data) = qSelect ∧
    queryType (("DELETE FROM t").data) = qDelete ∧
    queryType (("up").data) = qSelect :=
  ⟨queryType_iffs, by decide, by decide, by decide⟩

/-- Witness for claim C7: the short-text clause applied to a concrete two-character
statement. -/
theorem queryType_classification_witness :
    queryType (("up").data) = qSelect :=
  (queryType_classification.1 (("up").data)).2.2.2.2 (by decide)

/-- Claim C8: the transactional update and delete executors turn the explicit
empty-result condition of the row-count call into a successful zero count,
while preparation errors, execution errors, and any other row-count error
are propagated as failures, and a reported count is returned as is. -/
theorem updateTx_deleteTx_noRows :
    ∀ env : StmtEnv,
      (env.prepErr = none → env.panics = none → env.execErr = none →
        env.rows = .errNoRows → updateTx env = .ok 0 ∧ deleteTx env = .ok 0) ∧
      (∀ e, env.prepErr = some e → updateTx env = .err e ∧ deleteTx env = .err e) ∧
      (∀ e, env.prepErr = none → env.panics = none → env.execErr = some e →
        updateTx env = .err e ∧ deleteTx env = .err e) ∧
      (∀ e, env.prepErr = none → env.panics = none → env.execErr = none →
        env.rows = .errOther e → updateTx env = .err e ∧ deleteTx env = .err e) ∧
      (∀ n, env.prepErr = none → env.panics = none → env.execErr = none →
        env.rows = .affected n → updateTx env = .ok n ∧ deleteTx env = .ok n) := by
  intro env
  refine ⟨?_, ?_, ?_, ?_, ?_⟩
  · intro h1 h2 h3 h4
    constructor <;> simp [updateTx, deleteTx, h1, h2, h3, h4]
  · intro e h1
    constructor <;> simp [updateTx, deleteTx, h1]
  · intro e h1 h2 h3
    constructor <;> simp [updateTx, deleteTx, h1, h2, h3]
  · intro e h1 h2 h3 h4
    constructor <;> simp [updateTx, deleteTx, h1, h2, h3, h4]
  · intro n h1 h2 h3 h4
    constructor <;> simp [updateTx, deleteTx, h1, h2, h3, h4]

/-- Witness for claim C8: a concrete no-rows outcome yields a successful zero count
and a concrete execution error is propagated. -/
theorem updateTx_deleteTx_noRows_witness :
    updateTx ⟨none, none, none, .errNoRows, none, .vnil⟩ = .ok 0 ∧
    deleteTx ⟨none, none, none, .errNoRows, none, .vnil⟩ = .ok 0 ∧
    updateTx ⟨none, none, some "boom", .affected 0, none, .vnil⟩ = .err "boom" := by
  refine ⟨?_, ?_, ?_⟩
  · exact ((updateTx_deleteTx_noRows _).1 rfl rfl rfl rfl).1
  · exact ((updateTx_deleteTx_noRows _).1 rfl rfl rfl rfl).2
  · exact ((updateTx_deleteTx_noRows _).2.2.1 "boom" rfl rfl rfl).1

/-- Claim C9: the hook-aware resolver rewrites a value exactly when it is a
string strictly longer than eleven characters whose first eleven
characters equal the hook; the bare eleven-character marker passes through
unchanged; the comparison window is the hard-coded eleven regardless of
the hook argument's length, so a hook of any other length never rewrites
anything; non-string values pass through. -/
theorem pairsHook_eleven_boundary :
    (∀ (k v : GoVal) (ids : ArgMap) (hook : GoStr),
      PairsHook [k, v] ids hook = .ok [(goFormat k, hookResolve ids hook v)]) ∧
    (∀ (ids : ArgMap) (hook s : GoStr),
      11 < s.length → s.take 11 = hook →
      hookResolve ids hook (.vstr s) = (mapGet ids (s.drop 11)).getD .vnil) ∧
    (∀ (ids : ArgMap) (hook s : GoStr),
      ¬(11 < s.length ∧ s.take 11 = hook) → hookResolve ids hook (.vstr s) = .vstr s) ∧
    (∀ ids : ArgMap, hookResolve ids qResult (.vstr qResult) = .vstr qResult) ∧
    (∀ (ids : ArgMap) (hook s : GoStr), hook.length ≠ 11 →
      hookResolve ids hook (.vstr s) = .vstr s) ∧
    (∀ (ids : ArgMap) (hook : GoStr) (n : Int), hookResolve ids hook (.vint n) = .vint n) := by
  refine ⟨?_, ?_, ?_, ?_, ?_, ?_⟩
  · intro k v ids hook
    simp [PairsHook, pairsHookLoop, mapSet]
  · intro ids hook s h1 h2
    simp only [hookResolve]
    rw [if_pos ⟨h1, h2⟩]
  · intro ids hook s h
    simp only [hookResolve]
    rw [if_neg h]
  · intro ids
    simp only [hookResolve]
    rw [if_neg (fun hp => absurd hp.1 (by decide))]
  · intro ids hook s hh
    simp only [hookResolve]
    rw [if_neg (by
      rintro ⟨h1, h2⟩
      exact hh (by rw [← h2, List.length_take]; exact min_eq_left (by omega)))]
  · intro ids hook n
    rfl

/-- Witness for claim C9: a concrete marker string resolves, the bare marker and a
string under a two-character hook pass through. -/
theorem pairsHook_eleven_boundary_witness :
    hookResolve [((("id").data), GoVal.vint 9)] qResult
      (.vstr (qResult ++ ("id").data)) = GoVal.vint 9 ∧
    hookResolve [] qResult (.vstr qResult) = .vstr qResult ∧
    hookResolve [] (("ab").data) (.vstr (("abcdefghijklm").data)) =
      .vstr (("abcdefghijklm").data) := by
  refine ⟨?_, ?_, ?_⟩
  · rw [pairsHook_eleven_boundary.2.1 _ _ _ (by decide) (by decide)]
    decide
  · exact pairsHook_eleven_boundary.2.2.2.1 []
  · exact pairsHook_eleven_boundary.2.2.2.2.1 [] (("ab").data) (("abcdefghijklm").data)
      (by decide)

/-- Claim C10: a select-classified statement (including any statement whose
trimmed text is shorter than six characters) is dispatched to the update
executor by both the single-statement Exec path and the pipeline runner;
there is no select executor in either dispatch. -/
theorem select_dispatch_update :
    (∀ q : GoStr, queryType q = qSelect →
      pipelineDispatch q = .updateE ∧ execDispatch q = .updateE) ∧
    (∀ q : GoStr, (goTrim q).length < 6 →
      pipelineDispatch q = .updateE ∧ execDispatch q = .updateE) ∧
    (∀ (env : StmtEnv) (e : ExecQuery) (m : ArgMap),
      isTrans e.pipeline = false → Pairs e.keyValuePairs = .ok m →
      queryType e.query = qSelect → Exec env e = intResult (updateTx env)) ∧
    (∀ (env : Nat → StmtEnv) (ctxDone : Nat → Bool) (txIsNil : Bool) (p : Pipeline)
       (res : GoResult ArgMap) (steps : List Step),
      runPipeline env ctxDone txIsNil p = (res, steps) →
      ∀ st ∈ steps, queryType st.key = qSelect → st.exe = .updateE) := by
  have hbase : ∀ q : GoStr, queryType q = qSelect →
      pipelineDispatch q = .updateE ∧ execDispatch q = .updateE := by
    intro q h
    constructor
    · simp only [pipelineDispatch]
      rw [h, if_neg (by decide), if_neg (by decide)]
    · simp only [execDispatch]
      rw [h, if_neg (by decide), if_neg (by decide)]
  refine ⟨hbase, ?_, ?_, ?_⟩
  · intro q hlt
    exact hbase q ((queryType_iffs q).2.2.2.2 hlt)
  · intro env e m hT hm hsel
    unfold Exec
    rw [if_neg (by simp [hT])]
    simp only [hm]
    rw [(hbase e.query hsel).2]
  · intro env ctxDone txIsNil p res steps heq st hst hsel
    obtain ⟨-, h2, -⟩ := runPipeline_steps env ctxDone txIsNil p res steps heq st hst
    rw [h2]
    exact (hbase st.key hsel).1

/-- Witness for claim C10: concrete select-classified statements dispatch to the
update executor on both paths. -/
theorem select_dispatch_update_witness :
    pipelineDispatch (("up").data) = .updateE ∧
    execDispatch (("select * from t").data) = .updateE := by
  constructor
  · exact (select_dispatch_update.1 (("up").data) (by decide)).1
  · exact (select_dispatch_update.1 (("select * from t").data) (by decide)).2

/-- Claim C2: when the first failing entry of the prepended pipeline sits at
position f (failed cancellation check, missing or odd parameters, executor
error, or a panic), every executed entry has position at most f, the
transaction is rolled back exactly once and never committed, and the
failure — or the panic value unchanged — is propagated to the caller;
conversely a committed run had every entry pass all its gates. -/
theorem execInTx_failfast_rollback :
    (∀ (env : Nat → StmtEnv) (ctxDone : Nat → Bool) (ce : Option String)
       (e : ExecQuery) (f : Nat),
      isTrans e.pipeline = true →
      f < (addFirstPipeline e.pipeline e.query e.keyValuePairs).queryKeys.length →
      (∀ j, j < f → stepOkB env ctxDone
        (addFirstPipeline e.pipeline e.query e.keyValuePairs).queryParameters j
        ((addFirstPipeline e.pipeline e.query e.keyValuePairs).queryKeys.getD j []) = true) →
      stepOkB env ctxDone
        (addFirstPipeline e.pipeline e.query e.keyValuePairs).queryParameters f
        ((addFirstPipeline e.pipeline e.query e.keyValuePairs).queryKeys.getD f []) = false →
      ∃ r log, ExecInTx env ctxDone none ce e = (r, log) ∧
        log.beginCalls = 1 ∧ log.commitCalls = 0 ∧ log.rollbackCalls = 1 ∧
        (∀ st ∈ log.steps, st.idx ≤ f) ∧
        ((∃ msg, r = .ret none (some msg)) ∨
         (∃ pv, r = .panicked pv ∧
           stepOutcome env f
             ((addFirstPipeline e.pipeline e.query e.keyValuePairs).queryKeys.getD f []) =
             .panicked pv))) ∧
    (∀ (env : Nat → StmtEnv) (ctxDone : Nat → Bool) (be ce : Option String)
       (e : ExecQuery) (r : TxReturn) (log : TxLog),
      ExecInTx env ctxDone be ce e = (r, log) → log.commitCalls = 1 →
      ∀ j, j < (addFirstPipeline e.pipeline e.query e.keyValuePairs).queryKeys.length →
        stepOkB env ctxDone
          (addFirstPipeline e.pipeline e.query e.keyValuePairs).queryParameters j
          ((addFirstPipeline e.pipeline e.query e.keyValuePairs).queryKeys.getD j []) = true) := by
  constructor
  · intro env ctxDone ce e f hT hf hok hfail
    have hok0 : ∀ j, j < f → stepOkB env ctxDone
        (addFirstPipeline e.pipeline e.query e.keyValuePairs).queryParameters (0 + j)
        ((addFirstPipeline e.pipeline e.query e.keyValuePairs).queryKeys.getD j []) = true := by
      intro j hj
      simpa using hok j hj
    have hfail0 : stepOkB env ctxDone
        (addFirstPipeline e.pipeline e.query e.keyValuePairs).queryParameters (0 + f)
        ((addFirstPipeline e.pipeline e.query e.keyValuePairs).queryKeys.getD f []) = false := by
      simpa using hfail
    obtain ⟨res, post, heq, hidx, hkind⟩ :=
      runLoop_first_fail env ctxDone
        (addFirstPipeline e.pipeline e.query e.keyValuePairs).queryParameters
        (addFirstPipeline e.pipeline e.query e.keyValuePairs).queryKeys f 0 [] []
        hf hok0 hfail0
    have hrp : runPipeline env ctxDone false
        (addFirstPipeline e.pipeline e.query e.keyValuePairs) = (res, post) := by
      rw [runPipeline_runLoop env ctxDone _ (by omega), heq]
      simp
    have hex := ExecInTx_run env ctxDone ce e res post hT hrp
    rcases hkind with ⟨msg, hmsg⟩ | ⟨pv, hpv, hout⟩
    · subst hmsg
      refine ⟨.ret none (some msg), ⟨1, 0, 1, post⟩, hex, rfl, rfl, rfl, ?_,
        Or.inl ⟨msg, rfl⟩⟩
      intro st hst
      have := hidx st hst
      omega
    · subst hpv
      refine ⟨.panicked pv, ⟨1, 0, 1, post⟩, hex, rfl, rfl, rfl, ?_,
        Or.inr ⟨pv, rfl, by simpa using hout⟩⟩
      intro st hst
      have := hidx st hst
      omega
  · intro env ctxDone be ce e r log hexec hcommit j hj
    by_cases hT : isTrans e.pipeline = true
    · cases be with
      | some b =>
        rw [ExecInTx_beginFail env ctxDone b ce e hT] at hexec
        injection hexec with h1 h2
        subst h2
        simp at hcommit
      | none =>
        rcases hr : runPipeline env ctxDone false
            (addFirstPipeline e.pipeline e.query e.keyValuePairs) with ⟨res, steps⟩
        have hex := ExecInTx_run env ctxDone ce e res steps hT hr
        rw [hex] at hexec
        cases res with
        | err msg =>
          injection hexec with h1 h2
          subst h2
          simp at hcommit
        | panicked pv =>
          injection hexec with h1 h2
          subst h2
          simp at hcommit
        | ok ids =>
          by_cases hz : (addFirstPipeline e.pipeline e.query e.keyValuePairs).queryKeys.length = 0
          · omega
          · rw [runPipeline_runLoop env ctxDone _ hz] at hr
            have := runLoop_ok_all env ctxDone
              (addFirstPipeline e.pipeline e.query e.keyValuePairs).queryParameters
              (addFirstPipeline e.pipeline e.query e.keyValuePairs).queryKeys
              0 [] [] ids steps hr j hj
            simpa using this
    · have hF : isTrans e.pipeline = false := by
        cases h : isTrans e.pipeline
        · rfl
        · exact absurd h hT
      rw [ExecInTx_guard env ctxDone be ce e hF] at hexec
      injection hexec with h1 h2
      subst h2
      simp at hcommit

/-- Witness for claim C2: a concrete two-entry run whose second statement fails is
rolled back once and never committed. -/
theorem execInTx_failfast_rollback_witness :
    ∃ r log, ExecInTx envFailAt1 ctxNever none none eTwo = (r, log) ∧
      log.commitCalls = 0 ∧ log.rollbackCalls = 1 := by
  obtain ⟨r, log, h1, hb, hc, hr, hsteps, hkind⟩ :=
    execInTx_failfast_rollback.1 envFailAt1 ctxNever none eTwo 1
      (by decide) (by decide) (by decide) (by decide)
  exact ⟨r, log, h1, hc, hr⟩

/-- Claim C3: every executed entry resolved its arguments against exactly the
identifier map accumulated from the entries executed strictly before it; a
marker built from the reserved hook and a statement key resolves to the
value recorded under that key, or nil when absent, never an error; and
every binding produced by the hook-aware resolver is the hook-resolution
of the corresponding raw value. -/
theorem pipeline_result_substitution :
    (∀ (env : Nat → StmtEnv) (ctxDone : Nat → Bool) (txIsNil : Bool) (p : Pipeline)
       (res : GoResult ArgMap) (steps : List Step),
      runPipeline env ctxDone txIsNil p = (res, steps) →
      ∀ j, j < steps.length →
        (steps.getD j step0).idsBefore = idsOfSteps (steps.take j) ∧
        PairsHook ((mapGet p.queryParameters (steps.getD j step0).key).getD [])
          ((steps.getD j step0).idsBefore) qResult = .ok ((steps.getD j step0).args)) ∧
    (∀ (ids : ArgMap) (k : GoStr), k ≠ [] →
      hookResolve ids qResult (.vstr (qResult ++ k)) = (mapGet ids k).getD .vnil) ∧
    (∀ (kv : List GoVal) (ids m : ArgMap),
      PairsHook kv ids qResult = .ok m →
      ∀ key w, mapGet m key = some w →
        ∃ j, 2 * j + 1 < kv.length ∧ goFormat (kv.getD (2 * j) .vnil) = key ∧
          w = hookResolve ids qResult (kv.getD (2 * j + 1) .vnil)) := by
  refine ⟨?_, hookResolve_marker, ?_⟩
  · intro env ctxDone txIsNil p res steps heq j hj
    exact runPipeline_resolution env ctxDone txIsNil p res steps heq j hj
  · intro kv ids m hok key w hget
    have heven : kv.length % 2 = 0 := by
      rcases Nat.mod_two_eq_zero_or_one kv.length with h | h
      · exact h
      · rw [PairsHook_odd kv ids qResult h] at hok
        simp at hok
    have hm : m = pairsHookLoop ids qResult kv [] := by
      rw [PairsHook_even kv ids qResult heven] at hok
      injection hok with h
      exact h.symm
    subst hm
    rcases pairsHookLoop_lookup ids qResult kv.length kv [] key w (Nat.le_refl _) hget
      with h | h
    · exact h
    · simp [mapGet] at h

/-- Witness for claim C3: a marker referencing a recorded key resolves to its value
and a marker referencing an absent key resolves to nil. -/
theorem pipeline_result_substitution_witness :
    hookResolve [((("k1").data), GoVal.vint 42)] qResult
      (.vstr (qResult ++ ("k1").data)) = GoVal.vint 42 ∧
    hookResolve [] qResult (.vstr (qResult ++ ("k2").data)) = GoVal.vnil := by
  constructor
  · rw [pipeline_result_substitution.2.1 _ _ (by decide)]
    decide
  · rw [pipeline_result_substitution.2.1 _ _ (by decide)]
    decide

/-- Claim C4 (counterexample): a pipeline whose disambiguator produced a
duplicate key runs with every statement succeeding and the transaction
committed once, yet the Execution Result holds three keys while the
pipeline has four entries. -/
theorem execInTx_result_size_counterexample :
    (addFirstPipeline eBug.pipeline eBug.query eBug.keyValuePairs).queryKeys.length = 4 ∧
    ((List.range 4).all (fun j => stepOkB envOkAll ctxNever
      (addFirstPipeline eBug.pipeline eBug.query eBug.keyValuePairs).queryParameters j
      ((addFirstPipeline eBug.pipeline eBug.query eBug.keyValuePairs).queryKeys.getD j [])))
      = true ∧
    (ExecInTx envOkAll ctxNever none none eBug).2.commitCalls = 1 ∧
    (match (ExecInTx envOkAll ctxNever none none eBug).1 with
     | .ret (some ids) none => ids.length
     | _ => 999) = 3 := by decide

/-- Claim C4 (amended): for every run of the transaction runner whose prepended
pipeline has pairwise-distinct keys and in which every entry passes its
gates, the runner returns an Execution Result with exactly one key per
entry, each mapped to the output its statement's executor produced, with
exactly one commit and no rollback. -/
theorem execInTx_all_success :
    ∀ (env : Nat → StmtEnv) (ctxDone : Nat → Bool) (e : ExecQuery),
      isTrans e.pipeline = true →
      (addFirstPipeline e.pipeline e.query e.keyValuePairs).queryKeys.Nodup →
      (∀ j, j < (addFirstPipeline e.pipeline e.query e.keyValuePairs).queryKeys.length →
        stepOkB env ctxDone
          (addFirstPipeline e.pipeline e.query e.keyValuePairs).queryParameters j
          ((addFirstPipeline e.pipeline e.query e.keyValuePairs).queryKeys.getD j []) = true) →
      ∃ ids steps,
        ExecInTx env ctxDone none none e = (.ret (some ids) none, ⟨1, 1, 0, steps⟩) ∧
        ids.length = (addFirstPipeline e.pipeline e.query e.keyValuePairs).queryKeys.length ∧
        (∀ j, j < (addFirstPipeline e.pipeline e.query e.keyValuePairs).queryKeys.length →
          ∃ v, stepOutcome env j
              ((addFirstPipeline e.pipeline e.query e.keyValuePairs).queryKeys.getD j []) =
              .ok v ∧
            mapGet ids
              ((addFirstPipeline e.pipeline e.query e.keyValuePairs).queryKeys.getD j []) =
              some v) := by
  intro env ctxDone e hT hnd hok
  have hok0 : ∀ j, j < (addFirstPipeline e.pipeline e.query e.keyValuePairs).queryKeys.length →
      stepOkB env ctxDone
        (addFirstPipeline e.pipeline e.query e.keyValuePairs).queryParameters (0 + j)
        ((addFirstPipeline e.pipeline e.query e.keyValuePairs).queryKeys.getD j []) = true := by
    intro j hj
    simpa using hok j hj
  obtain ⟨finalIds, post, heq, hother, hlen, hkey⟩ :=
    runLoop_all_ok env ctxDone
      (addFirstPipeline e.pipeline e.query e.keyValuePairs).queryParameters
      (addFirstPipeline e.pipeline e.query e.keyValuePairs).queryKeys 0 [] [] hok0
  have hpos := addFirstPipeline_length_pos e.pipeline e.query e.keyValuePairs hT
  have hrp : runPipeline env ctxDone false
      (addFirstPipeline e.pipeline e.query e.keyValuePairs) = (.ok finalIds, post) := by
    rw [runPipeline_runLoop env ctxDone _ (by omega), heq]
    simp
  have hex := ExecInTx_run env ctxDone none e (.ok finalIds) post hT hrp
  refine ⟨finalIds, post, hex, ?_, ?_⟩
  · have hfresh : ∀ q ∈ (addFirstPipeline e.pipeline e.query e.keyValuePairs).queryKeys,
        mapGet ([] : ArgMap) q = none := by
      intro q hq
      rfl
    have := hlen hnd hfresh
    simpa using this
  · intro j hj
    obtain ⟨v, hv1, hv2⟩ := hkey hnd j hj
    exact ⟨v, by simpa using hv1, hv2⟩

/-- Witness for claim C4: a concrete two-entry duplicate-free run commits once and
returns a two-key Execution Result. -/
theorem execInTx_all_success_witness :
    ∃ ids steps,
      ExecInTx envOkAll ctxNever none none eTwo = (.ret (some ids) none, ⟨1, 1, 0, steps⟩) ∧
      ids.length = 2 := by
  obtain ⟨ids, steps, h1, h2, h3⟩ :=
    execInTx_all_success envOkAll ctxNever eTwo (by decide) (by decide) (by decide)
  refine ⟨ids, steps, h1, ?_⟩
  rw [h2]
  decide

end GoPostgres
